import Mathlib

/-!
# Verification of the obs_activity_classifier core pipeline

Shallow embedding of the core signal-to-label pipeline of the
`obs_activity_classifier` repository:

* `ActivityClassifier` — `src/server/analysis/activity_classifier.py`
  (heuristic decision list and model-based strategy);
* `StreamProcessor` — `src/server/capture/stream_processor.py`
  (video / audio feature extraction);
* `DBManager` — `src/server/database/db_manager.py`
  (range queries and timeline aggregation statistics).

Python floats are modelled as exact rationals (`ℚ`), timestamps as `ℤ`,
Python dicts (which preserve insertion order) as association lists, and
fallible operations (code paths that raise and are caught) as `Option`.
External collaborators (OpenCV colour conversion / resampling, NumPy's
FFT, the TensorFlow model) are parameters of the embedded functions;
everything the repository itself computes is embedded directly.
-/

/-- `np.argmax` over a list: index of the first occurrence of the
maximum; `none` models the `ValueError` NumPy raises on an empty array. -/
def argmaxGo : List ℚ → ℕ → ℕ → ℚ → ℕ
  | [], _, bi, _ => bi
  | x :: xs, i, bi, bv => if bv < x then argmaxGo xs (i + 1) i x else argmaxGo xs (i + 1) bi bv

def npArgmax : List ℚ → Option ℕ
  | [] => none
  | x :: xs => some (argmaxGo xs 1 0 x)

namespace ActivityClassifier

/-- The fixed, ordered activity label list `self.activity_classes`
(activity_classifier.py, lines 32-40).  The spec refers to the labels by
English names; positionally: "endormi" = asleep, "à table" = at table,
"lisant" = reading, "au téléphone" = on phone, "en conversation" =
in conversation, "occupé" = busy, "inactif" = idle. -/
def activity_classes : List String :=
  ["endormi", "à table", "lisant", "au téléphone", "en conversation", "occupé", "inactif"]

/-- The video feature dict as read by the classifier
(`video_data.get('features', {})` followed by `.get(key, default)`),
every key possibly absent. -/
structure VideoFeatures where
  motion_percent : Option ℚ
  hsv_means : Option (ℚ × ℚ × ℚ)
  skin_percent : Option ℚ

/-- The audio feature dict as read by the classifier, every key possibly
absent. -/
structure AudioFeatures where
  rms_level : Option ℚ
  zero_crossing_rate : Option ℚ
  mid_freq_ratio : Option ℚ
  low_freq_ratio : Option ℚ
  high_freq_ratio : Option ℚ
  dominant_frequency : Option ℚ

/-- `_rule_based_classification` (activity_classifier.py, lines 79-140):
the ordered, first-match-wins heuristic decision list.  Every feature is
read with `dict.get(key, 0)` (default `0`; `hsv_means` defaults to
`(0, 0, 0)`); `skin_percent` is read by the source but not used by any
rule. -/
def _rule_based_classification (video : VideoFeatures) (audio : AudioFeatures) : String :=
  let motion_percent := video.motion_percent.getD 0
  let audio_level := audio.rms_level.getD 0
  let zcr := audio.zero_crossing_rate.getD 0
  let mid_freq_ratio := audio.mid_freq_ratio.getD 0
  let hsv_means := video.hsv_means.getD (0, 0, 0)
  if motion_percent < 2 ∧ audio_level < 0.1 then "endormi"
  else if 5 < motion_percent ∧ motion_percent < 15 ∧ hsv_means.2.2 > 100 then "à table"
  else if 2 < motion_percent ∧ motion_percent < 10 ∧ audio_level < 0.2 then "lisant"
  else if audio_level > 0.3 ∧ zcr > 0.05 ∧ mid_freq_ratio > 0.4 ∧ motion_percent < 10 then
    "au téléphone"
  else if audio_level > 0.25 ∧ zcr > 0.05 ∧ mid_freq_ratio > 0.4 ∧ motion_percent > 10 then
    "en conversation"
  else if motion_percent > 20 then "occupé"
  else "inactif"

/-- The five numeric quantities the heuristic rules read. -/
structure RuleInput where
  motion : ℚ
  audio : ℚ
  zcr : ℚ
  midr : ℚ
  hsvv : ℚ

/-- The quantities extracted from the two feature dicts by
`_rule_based_classification` before the rules run. -/
def ruleInputOf (video : VideoFeatures) (audio : AudioFeatures) : RuleInput :=
  ⟨video.motion_percent.getD 0, audio.rms_level.getD 0, audio.zero_crossing_rate.getD 0,
   audio.mid_freq_ratio.getD 0, (video.hsv_means.getD (0, 0, 0)).2.2⟩

/-- The decision list of activity_classifier.py lines 111-137 as an
explicit ordered list of (condition, label) pairs, thresholds verbatim. -/
def heuristicRules : List ((RuleInput → Bool) × String) :=
  [(fun x => decide (x.motion < 2 ∧ x.audio < 0.1), "endormi"),
   (fun x => decide (5 < x.motion ∧ x.motion < 15 ∧ x.hsvv > 100), "à table"),
   (fun x => decide (2 < x.motion ∧ x.motion < 10 ∧ x.audio < 0.2), "lisant"),
   (fun x => decide (x.audio > 0.3 ∧ x.zcr > 0.05 ∧ x.midr > 0.4 ∧ x.motion < 10), "au téléphone"),
   (fun x => decide (x.audio > 0.25 ∧ x.zcr > 0.05 ∧ x.midr > 0.4 ∧ x.motion > 10), "en conversation"),
   (fun x => decide (x.motion > 20), "occupé")]

/-- First-match-wins evaluation of a decision list; the label of the
first rule whose condition holds, `"inactif"` if none does. -/
def firstMatchLabel : List ((RuleInput → Bool) × String) → RuleInput → String
  | [], _ => "inactif"
  | (c, l) :: rs, x => if c x then l else firstMatchLabel rs x

theorem firstMatchLabel_eq_of_least (rs : List ((RuleInput → Bool) × String)) (x : RuleInput) :
    ∀ (i : ℕ) (c : RuleInput → Bool) (l : String), rs.get? i = some (c, l) → c x = true →
    (∀ j c' l', j < i → rs.get? j = some (c', l') → c' x = false) →
    firstMatchLabel rs x = l := by
  induction rs with
  | nil => intro i c l h; simp at h
  | cons hd tl ih =>
    intro i c l h hc hmin
    match i with
    | 0 =>
      simp only [List.get?] at h
      cases h
      simp [firstMatchLabel, hc]
    | Nat.succ i =>
      have h0 : hd.1 x = false := hmin 0 hd.1 hd.2 (Nat.succ_pos i) rfl
      have : firstMatchLabel tl x = l := by
        refine ih i c l h hc ?_
        intro j c' l' hj hg
        exact hmin (j + 1) c' l' (Nat.succ_lt_succ hj) hg
      simpa [firstMatchLabel, h0] using this

theorem rule_based_eq_firstMatch (v : VideoFeatures) (a : AudioFeatures) :
    _rule_based_classification v a = firstMatchLabel heuristicRules (ruleInputOf v a) := by
  simp only [_rule_based_classification, firstMatchLabel, heuristicRules, ruleInputOf,
    decide_eq_true_eq]

/-- `_model_based_classification` (activity_classifier.py, lines 142-186).
The TensorFlow model is external: `predict` stands for the output row
`predictions[0]` of `self.model.predict(...)`, with `none` modelling any
exception raised while preparing the inputs or running inference (such
exceptions propagate to `classify`'s handler, modelled here as `none`).
Lines 179-186: take the argmax and check it against the label list. -/
def _model_based_classification (predict : Option (List ℚ)) : Option String :=
  match predict with
  | none => none
  | some preds =>
    match npArgmax preds with
    | none => none
    | some idx =>
      if h : idx < activity_classes.length then some (activity_classes.get ⟨idx, h⟩)
      else some "inactif"

/-- The video data dict handed to `classify`; only its `features`
sub-dict is read by the heuristic strategy (the processed frame is
consumed by the external model inside `predict`). -/
structure VideoData where
  features : VideoFeatures

/-- The audio data dict handed to `classify`. -/
structure AudioData where
  features : AudioFeatures

/-- `classify` (activity_classifier.py, lines 55-77): `None` inputs give
`'inactif'`; otherwise dispatch on `self.rule_based`; any exception of
either strategy is caught and resolved to `'inactif'`. -/
def classify (rule_based : Bool) (predict : Option (List ℚ))
    (video_data : Option VideoData) (audio_data : Option AudioData) : String :=
  match video_data, audio_data with
  | some v, some a =>
    if rule_based then _rule_based_classification v.features a.features
    else (_model_based_classification predict).getD "inactif"
  | _, _ => "inactif"

theorem rule_based_mem_classes (v : VideoFeatures) (a : AudioFeatures) :
    _rule_based_classification v a ∈ activity_classes := by
  simp only [_rule_based_classification, activity_classes]
  split_ifs <;> simp

end ActivityClassifier

namespace ActivityClassifier

/-- C1: Heuristic classification evaluates the seven rules as an ordered,
first-match-wins decision list with exactly the spec's thresholds: the
code's if-chain equals first-match evaluation of `heuristicRules`; a rule
matched at index `i` wins whenever no earlier rule matches; and at
`motion_percent = 8`, `hsv` value mean `150`, `rms_level = 0.15` the
result is `"à table"` (spec: "at table", rule 2) although rule 3
(`"lisant"`, spec: "reading") also matches. -/
theorem c1_first_match_decision_list :
    (∀ v a, _rule_based_classification v a = firstMatchLabel heuristicRules (ruleInputOf v a))
    ∧ (∀ x i c l, heuristicRules.get? i = some (c, l) → c x = true →
        (∀ j c' l', j < i → heuristicRules.get? j = some (c', l') → c' x = false) →
        firstMatchLabel heuristicRules x = l)
    ∧ _rule_based_classification ⟨some 8, some (0, 0, 150), none⟩
        ⟨some 0.15, none, none, none, none, none⟩ = "à table"
    ∧ (∃ c, heuristicRules.get? 2 = some (c, "lisant") ∧ c ⟨8, 0.15, 0, 0, 150⟩ = true) := by
  refine ⟨rule_based_eq_firstMatch, ?_, ?_, ?_⟩
  · intro x i c l h hc hmin
    exact firstMatchLabel_eq_of_least heuristicRules x i c l h hc hmin
  · norm_num [_rule_based_classification]
  · refine ⟨_, rfl, ?_⟩
    norm_num

/-- Witness for C1: the first-match lemma applied at the concrete input
of the claim, rule 2 (index 1) being the first matching rule there. -/
theorem c1_first_match_decision_list_witness :
    firstMatchLabel heuristicRules ⟨8, 0.15, 0, 0, 150⟩ = "à table" := by
  refine c1_first_match_decision_list.2.1 ⟨8, 0.15, 0, 0, 150⟩ 1 _ "à table" rfl (by norm_num) ?_
  intro j c' l' hj hg
  interval_cases j
  · cases hg
    norm_num

/-- C3: for every pair of inputs (`None`, dicts with any keys missing)
and under both strategies, `classify` returns a member of the fixed
label list and, being a total function, never propagates an exception;
`None` inputs, a failed model inference (`predict = none`), an empty
prediction vector (argmax raises), and an out-of-range argmax all
resolve to the fallback `"inactif"` (spec: "idle"). -/
theorem c3_classify_total_fallback :
    (∀ rb p vd ad, classify rb p vd ad ∈ activity_classes)
    ∧ (∀ rb p vd ad, vd = none ∨ ad = none → classify rb p vd ad = "inactif")
    ∧ (∀ v a, classify false none (some v) (some a) = "inactif")
    ∧ (∀ v a, classify false (some []) (some v) (some a) = "inactif")
    ∧ (∀ v a preds idx, npArgmax preds = some idx → activity_classes.length ≤ idx →
        classify false (some preds) (some v) (some a) = "inactif") := by
  refine ⟨?_, ?_, ?_, ?_, ?_⟩
  · intro rb p vd ad
    cases vd with
    | none => simp [classify, activity_classes]
    | some v =>
      cases ad with
      | none => simp [classify, activity_classes]
      | some a =>
        cases rb with
        | true => simpa [classify] using rule_based_mem_classes v.features a.features
        | false =>
          simp only [classify, Bool.false_eq_true, if_false]
          cases p with
          | none => simp [_model_based_classification, activity_classes]
          | some preds =>
            cases hnp : npArgmax preds with
            | none => simp [_model_based_classification, hnp, activity_classes]
            | some idx =>
              by_cases h : idx < activity_classes.length
              · simp only [_model_based_classification, hnp]
                rw [dif_pos h, Option.getD_some]
                exact List.get_mem activity_classes idx h
              · have h7 : ¬ idx < (7 : ℕ) := by simpa [activity_classes] using h
                simp [_model_based_classification, hnp, h7, activity_classes]
  · intro rb p vd ad h
    match vd, ad with
    | none, _ => simp [classify]
    | some v, none => simp [classify]
    | some v, some a => rcases h with h | h <;> cases h
  · intro v a; simp [classify, _model_based_classification]
  · intro v a; simp [classify, _model_based_classification, npArgmax]
  · intro v a preds idx h hge
    simp [classify, _model_based_classification, h, Nat.not_lt_of_ge hge]

/-- Witness for C3: an 8-entry prediction vector whose argmax is 7, one
past the last valid label index, resolves to `"inactif"`. -/
theorem c3_classify_total_fallback_witness :
    classify false (some [0, 0, 0, 0, 0, 0, 0, 1]) (some ⟨⟨none, none, none⟩⟩)
      (some ⟨⟨none, none, none, none, none, none⟩⟩) = "inactif" := by
  refine c3_classify_total_fallback.2.2.2.2 _ _ [0, 0, 0, 0, 0, 0, 0, 1] 7 ?_ ?_
  · norm_num [npArgmax, argmaxGo]
  · norm_num [activity_classes]

/-- C9: in heuristic mode every missing feature is read with default 0,
so a bundle with no `motion_percent` key is classified exactly as if
`motion_percent` were 0; in particular a first-frame bundle (motion
absent) with `rms_level` below 0.1 yields `"endormi"` (spec: "asleep"),
not `"inactif"`. -/
theorem c9_missing_features_default_zero :
    (∀ v a, _rule_based_classification v a =
      _rule_based_classification
        ⟨some (v.motion_percent.getD 0), some (v.hsv_means.getD (0, 0, 0)),
         some (v.skin_percent.getD 0)⟩
        ⟨some (a.rms_level.getD 0), some (a.zero_crossing_rate.getD 0),
         some (a.mid_freq_ratio.getD 0), some (a.low_freq_ratio.getD 0),
         some (a.high_freq_ratio.getD 0), some (a.dominant_frequency.getD 0)⟩)
    ∧ (∀ v a, v.motion_percent = none → a.rms_level.getD 0 < 0.1 →
        _rule_based_classification v a = "endormi") := by
  constructor
  · intro v a; rfl
  · intro v a hm ha
    simp only [_rule_based_classification, hm, Option.getD_none]
    rw [if_pos ⟨by norm_num, ha⟩]

/-- Witness for C9: a first-frame video bundle (no `motion_percent`) with
quiet audio (`rms_level = 0.05`) classifies as `"endormi"`. -/
theorem c9_missing_features_default_zero_witness :
    _rule_based_classification ⟨none, none, none⟩
      ⟨some 0.05, none, none, none, none, none⟩ = "endormi" :=
  c9_missing_features_default_zero.2 ⟨none, none, none⟩
    ⟨some 0.05, none, none, none, none, none⟩ rfl (by norm_num)

end ActivityClassifier

namespace StreamProcessor

/-- A grayscale image (2-D NumPy array): dimensions plus pixel values;
pixel reads outside the dimensions never occur in the embedded code. -/
structure Img where
  rows : ℕ
  cols : ℕ
  px : ℕ → ℕ → ℚ

/-- A 3-channel (BGR or HSV) image. -/
structure ColorImg where
  rows : ℕ
  cols : ℕ
  px : ℕ → ℕ → ℚ × ℚ × ℚ

/-- `np.sum` over a 2-D array. -/
def imgSum (m : Img) : ℚ :=
  ∑ i in Finset.range m.rows, ∑ j in Finset.range m.cols, m.px i j

/-- `cv2.cvtColor(frame, COLOR_BGR2GRAY)` with the conversion formula
`grayPx` external (an OpenCV collaborator); OpenCV's documented contract
that the output has the input's dimensions is structural here. -/
def toGray (grayPx : (ℕ → ℕ → ℚ × ℚ × ℚ) → ℕ → ℕ → ℚ) (f : ColorImg) : Img :=
  ⟨f.rows, f.cols, grayPx f.px⟩

/-- `cv2.absdiff` followed by `cv2.threshold(·, 25, 255, THRESH_BINARY)`
(stream_processor.py, lines 73-76): 255 where the absolute per-pixel
difference strictly exceeds 25, else 0. -/
def motionMask (prev cur : Img) : Img :=
  ⟨cur.rows, cur.cols, fun i j => if 25 < |prev.px i j - cur.px i j| then 255 else 0⟩

/-- Line 79: percentage of moving pixels,
`np.sum(motion_mask) / (shape[0] * shape[1] * 255) * 100`. -/
def motionPercent (prev cur : Img) : ℚ :=
  imgSum (motionMask prev cur) /
    ((motionMask prev cur).rows * (motionMask prev cur).cols * 255) * 100

/-- `np.mean` of one channel of a 3-channel image (lines 87-89). -/
def chanMean (g : ColorImg) (sel : ℚ × ℚ × ℚ → ℚ) : ℚ :=
  (∑ i in Finset.range g.rows, ∑ j in Finset.range g.cols, sel (g.px i j)) /
    (g.rows * g.cols)

/-- `cv2.inRange(hsv, [0,20,70], [20,255,255])` (lines 98-102): 255 where
every channel lies within its inclusive bound, else 0. -/
def skinMask (hsv : ColorImg) : Img :=
  ⟨hsv.rows, hsv.cols, fun i j =>
    if 0 ≤ (hsv.px i j).1 ∧ (hsv.px i j).1 ≤ 20 ∧
       20 ≤ (hsv.px i j).2.1 ∧ (hsv.px i j).2.1 ≤ 255 ∧
       70 ≤ (hsv.px i j).2.2 ∧ (hsv.px i j).2.2 ≤ 255 then 255 else 0⟩

/-- The features dict produced by `process_video` (lines 61-106):
`motion_percent` is present only when a previous frame existed. -/
structure VideoFeaturesOut where
  motion_percent : Option ℚ
  hsv_means : ℚ × ℚ × ℚ
  skin_percent : ℚ

/-- The result dict of `process_video` (lines 112-115). -/
structure VideoResult where
  processed_frame : ColorImg
  features : VideoFeaturesOut

/-- `process_video` (stream_processor.py, lines 32-121), as a function of
the extractor state `previous_frame` returning (result, new state).

External OpenCV kernels are parameters: `grayPx` (BGR→gray), `hsvPx`
(BGR→HSV), `resizeCPx` / `resizeGPx` (interpolation of `cv2.resize`,
given the source image and the target width and height).  OpenCV's shape
contracts (colour conversion preserves dimensions, resize produces the
requested dimensions) are structural.

A `None` frame returns `None` before the try-block (line 47).  A frame
with a zero dimension makes `cv2.cvtColor` raise; the handler at line
119 returns `None`.  In every failure case `self.previous_frame` is
unchanged, because the state update (line 109) runs only after all
feature computations succeed. -/
def process_video (grayPx : (ℕ → ℕ → ℚ × ℚ × ℚ) → ℕ → ℕ → ℚ)
    (hsvPx : (ℕ → ℕ → ℚ × ℚ × ℚ) → ℕ → ℕ → ℚ × ℚ × ℚ)
    (resizeCPx : ColorImg → ℕ → ℕ → ℕ → ℕ → ℚ × ℚ × ℚ)
    (resizeGPx : Img → ℕ → ℕ → ℕ → ℕ → ℚ)
    (video_resolution : ℕ × ℕ) (previous_frame : Option Img)
    (frame : Option ColorImg) : Option VideoResult × Option Img :=
  match frame with
  | none => (none, previous_frame)
  | some f =>
    if f.rows = 0 ∨ f.cols = 0 then (none, previous_frame)
    else
      let gray : Img := toGray grayPx f
      let resized : ColorImg :=
        ⟨video_resolution.2, video_resolution.1, resizeCPx f video_resolution.1 video_resolution.2⟩
      let normalized : ColorImg :=
        ⟨resized.rows, resized.cols, fun i j =>
          ((resized.px i j).1 / 255, (resized.px i j).2.1 / 255, (resized.px i j).2.2 / 255)⟩
      let motion : Option ℚ :=
        match previous_frame with
        | some prev =>
          let prev_gray : Img :=
            if (prev.rows, prev.cols) = (gray.rows, gray.cols) then prev
            else ⟨gray.rows, gray.cols, resizeGPx prev gray.cols gray.rows⟩
          some (motionPercent prev_gray gray)
        | none => none
      let hsv : ColorImg := ⟨f.rows, f.cols, hsvPx f.px⟩
      let hsv_means : ℚ × ℚ × ℚ :=
        (chanMean hsv (fun p => p.1), chanMean hsv (fun p => p.2.1), chanMean hsv (fun p => p.2.2))
      let skin_percent : ℚ := imgSum (skinMask hsv) / (hsv.rows * hsv.cols * 255) * 100
      (some ⟨normalized, ⟨motion, hsv_means, skin_percent⟩⟩, some gray)

/-- `np.max(np.abs(l))` for a non-empty buffer; entries of `l.map abs`
are non-negative, so folding from 0 returns the maximum. -/
def maxAbs (l : List ℚ) : ℚ := (l.map (fun x => |x|)).foldr max 0

/-- Peak normalization (lines 142-146): divide by the peak magnitude,
but leave the buffer unchanged if the peak is 0 (never divide by 0). -/
def pNormalize (l : List ℚ) : List ℚ :=
  if 0 < maxAbs l then l.map (fun x => x / maxAbs l) else l

/-- Number of sign changes:
`np.sum(np.abs(np.diff(np.signbit(x))))` (line 160), where
`np.signbit x = x < 0` and adjacent unequal sign bits count 1. -/
def countFlips : List Bool → ℕ
  | [] => 0
  | [_] => 0
  | a :: b :: t => (if a ≠ b then 1 else 0) + countFlips (b :: t)

def signbitList (l : List ℚ) : List Bool := l.map (fun x => decide (x < 0))

/-- `np.fft.rfftfreq(n, 1/sample_rate)`: the `n/2 + 1` one-sided bin
frequencies `k * sample_rate / n`. -/
def rfftfreq (n : ℕ) (sample_rate : ℚ) : List ℚ :=
  (List.range (n / 2 + 1)).map (fun k => k * sample_rate / n)

/-- Summed magnitude of the spectrum bins whose frequency satisfies `p`
(lines 179-188: `np.sum(fft_result[mask])`). -/
def bandPower (p : ℚ → Bool) (freqs spectrum : List ℚ) : ℚ :=
  (((freqs.zip spectrum).filter (fun q => p q.1)).map (fun q => q.2)).sum

/-- `low_freq_power + mid_freq_power + high_freq_power` (line 191). -/
def totalPower (freqs spectrum : List ℚ) : ℚ :=
  bandPower (fun f => decide (f < 300)) freqs spectrum +
    bandPower (fun f => decide (300 ≤ f ∧ f ≤ 3000)) freqs spectrum +
    bandPower (fun f => decide (3000 < f)) freqs spectrum

/-- Lines 190-195: the three band ratios are written into the feature
dict only when `total_power > 0`; otherwise the keys are not set. -/
def spectralRatios (freqs spectrum : List ℚ) : Option ℚ × Option ℚ × Option ℚ :=
  if 0 < totalPower freqs spectrum then
    (some (bandPower (fun f => decide (f < 300)) freqs spectrum / totalPower freqs spectrum),
     some (bandPower (fun f => decide (300 ≤ f ∧ f ≤ 3000)) freqs spectrum /
       totalPower freqs spectrum),
     some (bandPower (fun f => decide (3000 < f)) freqs spectrum / totalPower freqs spectrum))
  else (none, none, none)

/-- The features dict produced by `process_audio` (lines 148-195); the
frequency-domain fields are absent when their blocks do not run. -/
structure AudioFeaturesOut where
  rms_level : ℚ
  zero_crossing_rate : ℚ
  dominant_frequency : Option ℚ
  low_freq_ratio : Option ℚ
  mid_freq_ratio : Option ℚ
  high_freq_ratio : Option ℚ

/-- The result dict of `process_audio` (lines 198-201). -/
structure AudioResult where
  processed_audio : List ℚ
  features : AudioFeaturesOut

/-- `process_audio` (stream_processor.py, lines 123-207), with the two
external NumPy numeric kernels as parameters: `npSqrt` (`np.sqrt`, for
the RMS at line 152) and `rfftMag` (`np.abs(np.fft.rfft(·))`, line 166).

A `None` buffer returns `None` at line 139.  For a zero-length buffer,
`np.max` over a zero-size array (line 143) raises `ValueError`; the
handler at line 205 returns `None` — no feature bundle is produced.  For
a non-empty buffer every step is a total numeric operation and a bundle
is returned; `len(normalized) > 0` always holds there, so the spectral
block is only conditioned on `len(fft_result) > 0` (line 172). -/
def process_audio (npSqrt : ℚ → ℚ) (rfftMag : List ℚ → List ℚ) (audio_sample_rate : ℚ)
    (audio_data : Option (List ℚ)) : Option AudioResult :=
  match audio_data with
  | none => none
  | some l =>
    if l = [] then none
    else
      let normalized := pNormalize l
      let rms := npSqrt ((normalized.map (fun x => x * x)).sum / normalized.length)
      let zcr : ℚ := (countFlips (signbitList normalized) : ℚ) / (2 * normalized.length)
      let fft_result := rfftMag normalized
      let freqs := rfftfreq normalized.length audio_sample_rate
      let freqFeats : Option ℚ × (Option ℚ × Option ℚ × Option ℚ) :=
        if 0 < fft_result.length then
          ((npArgmax fft_result).map (fun idx => freqs.getD idx 0), spectralRatios freqs fft_result)
        else (none, (none, none, none))
      some ⟨normalized,
        ⟨rms, zcr, freqFeats.1, freqFeats.2.1, freqFeats.2.2.1, freqFeats.2.2.2⟩⟩

theorem imgSum_nonneg (m : Img) (h : ∀ i j, 0 ≤ m.px i j) : 0 ≤ imgSum m :=
  Finset.sum_nonneg fun i _ => Finset.sum_nonneg fun j _ => h i j

theorem imgSum_le (m : Img) (c : ℚ) (h : ∀ i j, m.px i j ≤ c) :
    imgSum m ≤ m.rows * m.cols * c := by
  calc imgSum m ≤ ∑ _i in Finset.range m.rows, ∑ _j in Finset.range m.cols, c :=
        Finset.sum_le_sum fun i _ => Finset.sum_le_sum fun j _ => h i j
    _ = m.rows * m.cols * c := by
        simp [Finset.sum_const, Finset.card_range, nsmul_eq_mul, mul_assoc]

theorem motionPercent_bounds (prev cur : Img) (hr : cur.rows ≠ 0) (hc : cur.cols ≠ 0) :
    0 ≤ motionPercent prev cur ∧ motionPercent prev cur ≤ 100 := by
  have hpx0 : ∀ i j, 0 ≤ (motionMask prev cur).px i j := by
    intro i j; simp only [motionMask]; split_ifs <;> norm_num
  have hpx255 : ∀ i j, (motionMask prev cur).px i j ≤ 255 := by
    intro i j; simp only [motionMask]; split_ifs <;> norm_num
  have hD : (0 : ℚ) < (motionMask prev cur).rows * (motionMask prev cur).cols * 255 := by
    have h1 : (0 : ℚ) < ((motionMask prev cur).rows : ℚ) := by
      simp only [motionMask]
      exact_mod_cast Nat.pos_of_ne_zero hr
    have h2 : (0 : ℚ) < ((motionMask prev cur).cols : ℚ) := by
      simp only [motionMask]
      exact_mod_cast Nat.pos_of_ne_zero hc
    positivity
  constructor
  · have hS : 0 ≤ imgSum (motionMask prev cur) := imgSum_nonneg _ hpx0
    unfold motionPercent
    positivity
  · have hS : imgSum (motionMask prev cur) ≤
        (motionMask prev cur).rows * (motionMask prev cur).cols * 255 :=
      imgSum_le _ 255 hpx255
    unfold motionPercent
    have hdiv : imgSum (motionMask prev cur) /
        ((motionMask prev cur).rows * (motionMask prev cur).cols * 255) ≤ 1 :=
      (div_le_one hD).mpr hS
    calc imgSum (motionMask prev cur) /
          ((motionMask prev cur).rows * (motionMask prev cur).cols * 255) * 100
        ≤ 1 * 100 := by
          have : (0 : ℚ) ≤ 100 := by norm_num
          exact mul_le_mul_of_nonneg_right hdiv this
      _ = 100 := one_mul 100

end StreamProcessor

namespace StreamProcessor

/-- C6: whenever `process_video` succeeds and its features contain a
`motion_percent`, that value lies in [0, 100]; and on a call with no
stored previous frame the `motion_percent` field is absent (`none`),
not zero.  Quantified over the external OpenCV kernels. -/
theorem c6_motion_percent_range :
    (∀ gp hp rc rg res prev f m,
      ((process_video gp hp rc rg res prev (some f)).1.map
        (fun r => r.features.motion_percent)) = some (some m) → 0 ≤ m ∧ m ≤ 100)
    ∧ (∀ gp hp rc rg res f, f.rows ≠ 0 → f.cols ≠ 0 →
      ((process_video gp hp rc rg res none (some f)).1.map
        (fun r => r.features.motion_percent)) = some none) := by
  constructor
  · intro gp hp rc rg res prev f m h
    by_cases hz : f.rows = 0 ∨ f.cols = 0
    · simp [process_video, hz] at h
    · push_neg at hz
      cases prev with
      | none => simp [process_video, hz.1, hz.2] at h
      | some p =>
        simp only [process_video] at h
        rw [if_neg (by push_neg; exact hz)] at h
        simp only [Option.map_some', Option.some.injEq] at h
        rw [← h]
        exact motionPercent_bounds _ _ hz.1 hz.2
  · intro gp hp rc rg res f hr hc
    simp only [process_video]
    rw [if_neg (by push_neg; exact ⟨hr, hc⟩)]
    rfl

/-- C10: `process_video` updates the stored previous frame only on
success, atomically with producing a result: a failing call (result
`none`) leaves the state exactly as before, and a successful call leaves
the state equal to the grayscale conversion of the frame just processed. -/
theorem c10_state_updated_only_on_success :
    (∀ gp hp rc rg res prev x,
      (process_video gp hp rc rg res prev x).1 = none →
      (process_video gp hp rc rg res prev x).2 = prev)
    ∧ (∀ gp hp rc rg res prev x,
      ((process_video gp hp rc rg res prev x).1).isSome = true →
      ∃ f, x = some f ∧ (process_video gp hp rc rg res prev x).2 = some (toGray gp f)) := by
  constructor
  · intro gp hp rc rg res prev x h
    cases x with
    | none => rfl
    | some f =>
      by_cases hz : f.rows = 0 ∨ f.cols = 0
      · simp [process_video, hz]
      · simp [process_video, hz] at h
  · intro gp hp rc rg res prev x h
    cases x with
    | none => simp [process_video] at h
    | some f =>
      by_cases hz : f.rows = 0 ∨ f.cols = 0
      · simp [process_video, hz] at h
      · exact ⟨f, rfl, by simp [process_video, hz]⟩

/-- C4 (amended): for any one-sided magnitude spectrum and bin
frequencies, when the total summed band magnitude is positive the three
band ratios are present and sum to exactly 1; when it is not positive
the three ratio fields are omitted (`none`) — no division by zero is
ever performed; and the ratio fields of every bundle `process_audio`
produces are exactly `spectralRatios` of its spectrum. -/
theorem c4_band_ratios :
    (∀ freqs spectrum, 0 < totalPower freqs spectrum →
      ∃ lr mr hr, spectralRatios freqs spectrum = (some lr, some mr, some hr) ∧
        lr + mr + hr = 1)
    ∧ (∀ freqs spectrum, ¬ 0 < totalPower freqs spectrum →
      spectralRatios freqs spectrum = (none, none, none))
    ∧ (∀ npSqrt rfftMag sr l, l ≠ [] →
      ((process_audio npSqrt rfftMag sr (some l)).map
        (fun r => (r.features.low_freq_ratio, r.features.mid_freq_ratio,
          r.features.high_freq_ratio)))
      = some (spectralRatios (rfftfreq (pNormalize l).length sr) (rfftMag (pNormalize l)))) := by
  refine ⟨?_, ?_, ?_⟩
  · intro freqs spectrum h
    have hs : spectralRatios freqs spectrum =
        (some (bandPower (fun f => decide (f < 300)) freqs spectrum / totalPower freqs spectrum),
         some (bandPower (fun f => decide (300 ≤ f ∧ f ≤ 3000)) freqs spectrum /
           totalPower freqs spectrum),
         some (bandPower (fun f => decide (3000 < f)) freqs spectrum /
           totalPower freqs spectrum)) := by
      simp only [spectralRatios]
      rw [if_pos h]
    refine ⟨_, _, _, hs, ?_⟩
    rw [div_add_div_same, div_add_div_same]
    exact div_self (ne_of_gt h)
  · intro freqs spectrum h
    simp [spectralRatios, h]
  · intro npSqrt rfftMag sr l hl
    simp only [process_audio]
    rw [if_neg hl]
    by_cases hfft : 0 < (rfftMag (pNormalize l)).length
    · simp [hfft]
    · have hnil : rfftMag (pNormalize l) = [] := by
        cases hv : rfftMag (pNormalize l) with
        | nil => rfl
        | cons a t => rw [hv] at hfft; simp at hfft
      have : spectralRatios (rfftfreq (pNormalize l).length sr) (rfftMag (pNormalize l))
          = (none, none, none) := by
        rw [hnil]
        simp [spectralRatios, totalPower, bandPower]
      simp [hfft, this]

/-- Witness for C4: at one 5-magnitude bin at frequency 0 (a low-band
bin) the total power is 5 > 0 and the three ratios are present and sum
to 1. -/
theorem c4_band_ratios_witness :
    ∃ lr mr hr, spectralRatios [0] [5] = (some lr, some mr, some hr) ∧ lr + mr + hr = 1 := by
  refine c4_band_ratios.1 [0] [5] ?_
  norm_num [totalPower, bandPower, List.filter]

/-- Counterexample for C4 as stated: for the non-empty all-zero buffer
`[0, 0]` (for which `np.abs(np.fft.rfft(·))` is `[0, 0]` — any magnitude
kernel agreeing with NumPy there gives the same result) the total band
magnitude is 0 and the three ratio fields are omitted from the bundle
(`none`), not "defined and equal to 0" as the claim states. -/
theorem c4_band_ratios_counterexample :
    totalPower (rfftfreq 2 16000) [0, 0] = 0 ∧
    ((process_audio id (fun l => l.map (fun _ => 0)) 16000 (some [0, 0])).map
      (fun r => (r.features.low_freq_ratio, r.features.mid_freq_ratio,
        r.features.high_freq_ratio)))
      = some (none, none, none) := by
  constructor
  · norm_num [totalPower, bandPower, rfftfreq, List.filter, List.range_succ]
  · have h0 : totalPower (rfftfreq 2 16000) [(0 : ℚ), 0] = 0 := by
      norm_num [totalPower, bandPower, rfftfreq, List.filter, List.range_succ]
    have hmax : maxAbs [(0 : ℚ), 0] = 0 := by norm_num [maxAbs]
    have hnorm : pNormalize [(0 : ℚ), 0] = [0, 0] := by
      simp [pNormalize, hmax]
    simp only [process_audio]
    rw [if_neg (by simp : ¬([(0 : ℚ), 0] = []))]
    simp only [hnorm]
    norm_num [spectralRatios, h0]

/-- C5 (amended): `process_audio` is a total function — every internal
failure is absorbed — but an absent (`None`) buffer returns `None` by
the input guard and a zero-length buffer makes `np.max` raise
`ValueError`, caught by the handler, also returning `None`: in both
cases no feature bundle is produced.  Every non-empty buffer yields a
bundle. -/
theorem c5_audio_failure_yields_none :
    (∀ npSqrt rfftMag sr, process_audio npSqrt rfftMag sr none = none)
    ∧ (∀ npSqrt rfftMag sr, process_audio npSqrt rfftMag sr (some []) = none)
    ∧ (∀ npSqrt rfftMag sr l, l ≠ [] →
        (process_audio npSqrt rfftMag sr (some l)).isSome = true) := by
  refine ⟨fun _ _ _ => rfl, fun npSqrt rfftMag sr => by simp [process_audio], ?_⟩
  intro npSqrt rfftMag sr l hl
  simp [process_audio, hl]

/-- Witness for C5: the one-sample buffer `[1]` is non-empty and produces
a feature bundle. -/
theorem c5_audio_failure_yields_none_witness :
    (process_audio id id 16000 (some [1])).isSome = true :=
  c5_audio_failure_yields_none.2.2 id id 16000 [1] (by simp)

/-- Counterexample for C5 as stated: a zero-length buffer (and an absent
one) yields `None` — no bundle at all — not a feature bundle with the
frequency fields omitted. -/
theorem c5_audio_failure_counterexample :
    process_audio id id 16000 (some []) = none ∧ process_audio id id 16000 none = none :=
  ⟨by simp [process_audio], rfl⟩

/-- Demonstration instantiations of the external OpenCV kernels and two
concrete 1×1 images, used by the witnesses below. -/
def constGrayPx : (ℕ → ℕ → ℚ × ℚ × ℚ) → ℕ → ℕ → ℚ := fun _ _ _ => 0

def constHsvPx : (ℕ → ℕ → ℚ × ℚ × ℚ) → ℕ → ℕ → ℚ × ℚ × ℚ := fun _ _ _ => (0, 0, 0)

def constResizeC : ColorImg → ℕ → ℕ → ℕ → ℕ → ℚ × ℚ × ℚ := fun _ _ _ _ _ => (0, 0, 0)

def constResizeG : Img → ℕ → ℕ → ℕ → ℕ → ℚ := fun _ _ _ _ _ => 0

def demoFrame : ColorImg := ⟨1, 1, fun _ _ => (0, 0, 0)⟩

def demoPrev : Img := ⟨1, 1, fun _ _ => 0⟩

/-- Witness for C6: with a stored 1×1 previous frame the computed
`motion_percent` is 0, within [0, 100]; with no stored frame the field
is absent. -/
theorem c6_motion_percent_range_witness :
    (((process_video constGrayPx constHsvPx constResizeC constResizeG (224, 224)
        (some demoPrev) (some demoFrame)).1.map (fun r => r.features.motion_percent))
      = some (some 0))
    ∧ ((0 : ℚ) ≤ 0 ∧ (0 : ℚ) ≤ 100)
    ∧ (((process_video constGrayPx constHsvPx constResizeC constResizeG (224, 224)
        none (some demoFrame)).1.map (fun r => r.features.motion_percent)) = some none) := by
  have heval : ((process_video constGrayPx constHsvPx constResizeC constResizeG (224, 224)
      (some demoPrev) (some demoFrame)).1.map (fun r => r.features.motion_percent))
      = some (some 0) := by
    simp [process_video, demoFrame, demoPrev, toGray, constGrayPx, motionPercent, motionMask,
      imgSum]
  exact ⟨heval,
    c6_motion_percent_range.1 constGrayPx constHsvPx constResizeC constResizeG (224, 224)
      (some demoPrev) demoFrame 0 heval,
    c6_motion_percent_range.2 constGrayPx constHsvPx constResizeC constResizeG (224, 224)
      demoFrame (by simp [demoFrame]) (by simp [demoFrame])⟩

/-- Witness for C10: a call with a `None` frame fails and leaves the
stored previous frame untouched; a successful first call stores the
grayscale conversion of the processed frame. -/
theorem c10_state_updated_only_on_success_witness :
    ((process_video constGrayPx constHsvPx constResizeC constResizeG (224, 224)
        (some demoPrev) none).2 = some demoPrev)
    ∧ ((process_video constGrayPx constHsvPx constResizeC constResizeG (224, 224)
        none (some demoFrame)).2 = some (toGray constGrayPx demoFrame)) := by
  constructor
  · exact c10_state_updated_only_on_success.1 constGrayPx constHsvPx constResizeC constResizeG
      (224, 224) (some demoPrev) none rfl
  · obtain ⟨f, hf, h2⟩ := c10_state_updated_only_on_success.2 constGrayPx constHsvPx
      constResizeC constResizeG (224, 224) none (some demoFrame) (by simp [process_video, demoFrame])
    cases hf
    exact h2

end StreamProcessor

namespace DBManager

/-- One row of the `activities` table, as the statistics and range
queries read it: `(timestamp, activity)`; `id`, `confidence` and
`metadata` play no role in the embedded queries. -/
abbrev Row : Type := ℤ × String

/-- Stable insertion: `x` goes after every element `y` with `lt y x`
and before the first other one, so earlier elements precede later equal
ones. -/
def insertBy (lt : α → α → Bool) (x : α) : List α → List α
  | [] => [x]
  | y :: ys => if lt y x then y :: insertBy lt x ys else x :: y :: ys

/-- Stable insertion sort, used to model the deterministic part of SQL
`ORDER BY`: the result is sorted by `lt` and elements the comparator
ties keep their input order. -/
def isortBy (lt : α → α → Bool) : List α → List α
  | [] => []
  | x :: xs => insertBy lt x (isortBy lt xs)

/-- Byte-wise (code-point) comparison of strings, the order SQLite's
default BINARY collation gives on the UTF-8 encodings; used to model the
grouping order of `GROUP BY activity`. -/
def charListLtb : List Char → List Char → Bool
  | [], _ :: _ => true
  | [], [] => false
  | _ :: _, [] => false
  | c :: cs, d :: ds =>
    if c.toNat < d.toNat then true
    else if d.toNat < c.toNat then false
    else charListLtb cs ds

def strLtb (a b : String) : Bool := charListLtb a.data b.data

/-- `get_activities` (db_manager.py, lines 159-217): filter by
`timestamp >= start` and `timestamp <= end` (both bounds inclusive when
present), `ORDER BY timestamp DESC` (stable), `LIMIT limit`. -/
def get_activities (tbl : List Row) (start_time end_time : Option ℤ) (limit : ℕ) : List Row :=
  (isortBy (fun r s => decide (s.1 < r.1))
    (tbl.filter (fun r =>
      (match start_time with | some s => decide (s ≤ r.1) | none => true) &&
      (match end_time with | some e => decide (r.1 ≤ e) | none => true)))).take limit

/-- The row set of both statistics queries (lines 250-267):
`WHERE timestamp >= start_time` — there is no upper bound. -/
def statsRows (tbl : List Row) (start_time : ℤ) : List Row :=
  tbl.filter (fun r => decide (start_time ≤ r.1))

/-- `COUNT(*)` of one label. -/
def countOf (rows : List Row) (l : String) : ℕ :=
  (rows.filter (fun r => decide (r.2 = l))).length

/-- Fold step of first-occurrence deduplication. -/
def seenInsert (ks : List String) (l : String) : List String :=
  if l ∈ ks then ks else ks ++ [l]

/-- The distinct elements of `ls` in order of first occurrence (Python
dict key order under repeated insertion). -/
def firstOccur (ls : List String) : List String := ls.foldl seenInsert []

/-- The result rows of
`SELECT activity, COUNT(*) ... GROUP BY activity ORDER BY count DESC`
(lines 250-256).  SQLite forms the groups with a sorter on the grouping
term, so they arise in ascending BINARY label order; the `ORDER BY
count DESC` is modelled as a stable sort, so rows with equal counts
stay in label order.  (SQLite itself leaves the relative order of
equal-count rows unspecified; this is the deterministic refinement used
throughout, and in particular the tie order is unrelated to the
chronological order of the samples, which this query never sees.) -/
def sqlActivityCounts (rows : List Row) : List (String × ℕ) :=
  isortBy (fun p q => decide (q.2 < p.2))
    ((isortBy strLtb (firstOccur (rows.map (fun r => r.2)))).map (fun l => (l, countOf rows l)))

/-- The result rows of `SELECT id, timestamp, activity ... ORDER BY
timestamp` (lines 262-267), modelled as a stable ascending sort by
timestamp. -/
def timeline (rows : List Row) : List Row := isortBy (fun r s => decide (r.1 < s.1)) rows

/-- Python dict read `d.get(l, 0)` for the rational-valued dicts. -/
def lookupD : List (String × ℚ) → String → ℚ
  | [], _ => 0
  | (k, v) :: d, l => if k = l then v else lookupD d l

/-- Python dict read `d.get(l, 0)` for the count dicts. -/
def lookupN : List (String × ℕ) → String → ℕ
  | [], _ => 0
  | (k, v) :: d, l => if k = l then v else lookupN d l

/-- The `d[k] = d.get(k, 0) + v`-style update of lines 285-288 and
298-301: add to the first binding of `k`, or append a new binding. -/
def updateAdd : List (String × ℚ) → String → ℚ → List (String × ℚ)
  | [], k, v => [(k, v)]
  | (k', v') :: d, k, v => if k' = k then (k', v' + v) :: d else (k', v') :: updateAdd d k v

/-- Python dict assignment `d[k] = v` for count dicts. -/
def dictInsertN : List (String × ℕ) → String → ℕ → List (String × ℕ)
  | [], k, v => [(k, v)]
  | (k', v') :: d, k, v => if k' = k then (k, v) :: d else (k', v') :: dictInsertN d k v

/-- The duration-attribution loop of lines 272-301, processing the
timeline with the previous record carried along: every consecutive pair
attributes `current.timestamp - prev.timestamp` seconds to the previous
record's activity, and after the loop the final record receives
`now - its timestamp` (the last activity is still in progress). -/
def durGo (now : ℤ) : Option Row → List (String × ℚ) → List Row → List (String × ℚ)
  | prev, acc, [] =>
    match prev with
    | some p => updateAdd acc p.2 ((now - p.1 : ℤ) : ℚ)
    | none => acc
  | prev, acc, r :: rs =>
    durGo now (some r)
      (match prev with
       | some p => updateAdd acc p.2 ((r.1 - p.1 : ℤ) : ℚ)
       | none => acc) rs

/-- The per-label cumulative durations, in seconds, computed by
`get_statistics` (the `activity_durations` dict before the minute
conversion of line 327). -/
def activity_durations_sec (now : ℤ) (rows : List Row) : List (String × ℚ) :=
  durGo now none [] rows

/-- The loop of lines 314-322 building `statistics['activity_counts']`
and `most_frequent_activity`: insert each count row, then move the
marker when `count > counts.get(most_frequent, 0)` (strictly). -/
def mfGo : List (String × ℕ) → List (String × ℕ) → Option String →
    List (String × ℕ) × Option String
  | [], dict, mf => (dict, mf)
  | (a, c) :: rest, dict, mf =>
    mfGo rest (dictInsertN dict a c)
      (match mf with
       | none => some a
       | some m => if lookupN (dictInsertN dict a c) m < c then some a else some m)

/-- Python `round(x, 1)` on the exact rational: scale by 10, round half
to even, scale back. -/
def roundHalfEven (x : ℚ) : ℤ :=
  if x - ⌊x⌋ < 1/2 then ⌊x⌋
  else if 1/2 < x - ⌊x⌋ then ⌊x⌋ + 1
  else if 2 ∣ ⌊x⌋ then ⌊x⌋ else ⌊x⌋ + 1

def round1 (x : ℚ) : ℚ := (roundHalfEven (10 * x) : ℚ) / 10

/-- The loop of lines 324-332 over `activity_durations.items()`: report
each duration as minutes rounded to one decimal, and move the marker
when `duration > activity_durations.get(longest, 0)` (strictly; the
lookup is in the full seconds dict, whose keys are distinct, so
appending mirrors the dict assignment). -/
def lgGo (full : List (String × ℚ)) : List (String × ℚ) → List (String × ℚ) → Option String →
    List (String × ℚ) × Option String
  | [], rep, lg => (rep, lg)
  | (a, d) :: rest, rep, lg =>
    lgGo full rest (rep ++ [(a, round1 (d / 60))])
      (match lg with
       | none => some a
       | some m => if lookupD full m < d then some a else some m)

/-- The fields of the `statistics` dict that carry aggregation results
(lines 304-312); `period`, `start_time` and `end_time` are copied
parameters and are omitted. -/
structure Stats where
  activity_counts : List (String × ℕ)
  activity_durations : List (String × ℚ)
  most_frequent_activity : Option String
  longest_activity : Option String

/-- `get_statistics` (db_manager.py, lines 219-334) for a given start
time (derived from the requested period and the wall clock, lines
233-247, both external) and current time `now` (`time.time()`). -/
def get_statistics (tbl : List Row) (start_time now : ℤ) : Stats :=
  let rows := statsRows tbl start_time
  let counts := sqlActivityCounts rows
  let durations := activity_durations_sec now (timeline rows)
  let cf := mfGo counts [] none
  let lf := lgGo durations durations [] none
  ⟨cf.1, lf.1, cf.2, lf.2⟩

end DBManager

namespace DBManager

theorem insertBy_perm (lt : α → α → Bool) (x : α) (l : List α) :
    (insertBy lt x l).Perm (x :: l) := by
  induction l with
  | nil => exact List.Perm.refl _
  | cons y ys ih =>
    simp only [insertBy]
    split
    · exact (ih.cons y).trans (List.Perm.swap x y ys)
    · exact List.Perm.refl _

theorem isortBy_perm (lt : α → α → Bool) (l : List α) : (isortBy lt l).Perm l := by
  induction l with
  | nil => exact List.Perm.refl _
  | cons x xs ih => exact (insertBy_perm lt x (isortBy lt xs)).trans (ih.cons x)

theorem mem_isortBy {lt : α → α → Bool} {l : List α} {a : α} :
    a ∈ isortBy lt l ↔ a ∈ l :=
  (isortBy_perm lt l).mem_iff

/-- C7 (amended): `get_activities` restricts to the window by
`timestamp >= start` AND `timestamp <= end` — both bounds inclusive, so
a sample whose timestamp equals `end` is included; and the statistics
queries restrict only by `timestamp >= start`, with no upper bound at
all. -/
theorem c7_window_inclusive :
    (∀ (tbl : List Row) (s e : ℤ) (lim : ℕ) (r : Row), tbl.length ≤ lim →
      (r ∈ get_activities tbl (some s) (some e) lim ↔ r ∈ tbl ∧ s ≤ r.1 ∧ r.1 ≤ e))
    ∧ (∀ (tbl : List Row) (s : ℤ) (r : Row), r ∈ statsRows tbl s ↔ r ∈ tbl ∧ s ≤ r.1) := by
  constructor
  · intro tbl s e lim r hlim
    simp only [get_activities]
    rw [List.take_of_length_le
      (((isortBy_perm _ _).length_eq).le.trans ((List.length_filter_le _ _).trans hlim)),
      mem_isortBy, List.mem_filter]
    simp [and_assoc]
  · intro tbl s r
    simp [statsRows, List.mem_filter]

/-- Witness for C7 (amended): the row at timestamp 5 is returned by the
range query with `end_time = 5`. -/
theorem c7_window_inclusive_witness :
    ((5 : ℤ), "a") ∈ get_activities [((5 : ℤ), "a")] (some 0) (some 5) 100 :=
  (c7_window_inclusive.1 [((5 : ℤ), "a")] 0 5 100 ((5 : ℤ), "a") (by norm_num)).mpr
    ⟨by simp, by norm_num, by norm_num⟩

/-- Counterexample for C7 as stated: the claim's exclusive upper bound
would exclude a sample with `timestamp = end`, but `get_activities`
(`timestamp <= ?`, line 186) returns it. -/
theorem c7_window_counterexample :
    get_activities [((5 : ℤ), "a")] (some 0) (some 5) 100 = [((5 : ℤ), "a")] ∧
    ((5 : ℤ), "a") ∈ statsRows [((5 : ℤ), "a")] 0 := by
  constructor
  · rfl
  · simp [statsRows]

end DBManager

namespace DBManager

theorem lookupD_updateAdd (d : List (String × ℚ)) (k : String) (v : ℚ) (l : String) :
    lookupD (updateAdd d k v) l = lookupD d l + if k = l then v else 0 := by
  induction d with
  | nil =>
    simp only [updateAdd, lookupD]
    split_ifs <;> simp
  | cons h d ih =>
    obtain ⟨k', v'⟩ := h
    simp only [updateAdd]
    by_cases hk : k' = k
    · subst hk
      simp only [if_pos rfl, lookupD]
      split_ifs <;> simp
    · rw [if_neg hk]
      simp only [lookupD]
      by_cases hl : k' = l
      · subst hl
        have : ¬ k = k' := fun h => hk h.symm
        simp [this]
      · simp [hl, ih]

/-- The per-label duration attribution of spec §4.4, written directly on
the sample list: every sample but the last contributes the gap to the
next sample's timestamp, attributed to its own label, and the last
sample contributes `now` minus its timestamp. -/
def specDur (now : ℤ) (l : String) : List Row → ℚ
  | [] => 0
  | [r] => if r.2 = l then ((now - r.1 : ℤ) : ℚ) else 0
  | r :: s :: rs => (if r.2 = l then ((s.1 - r.1 : ℤ) : ℚ) else 0) + specDur now l (s :: rs)

theorem durGo_lookup (now : ℤ) (l : String) :
    ∀ (rows : List Row) (prev : Option Row) (acc : List (String × ℚ)),
    lookupD (durGo now prev acc rows) l = lookupD acc l + specDur now l (prev.toList ++ rows) := by
  intro rows
  induction rows with
  | nil =>
    intro prev acc
    cases prev with
    | none => simp [durGo, specDur]
    | some p =>
      simp only [durGo, Option.toList, List.cons_append, List.nil_append, specDur,
        lookupD_updateAdd]
  | cons r rs ih =>
    intro prev acc
    cases prev with
    | none => simpa [durGo] using ih (some r) acc
    | some p =>
      simp only [durGo]
      rw [ih (some r) _]
      simp only [Option.toList, List.cons_append, List.nil_append, lookupD_updateAdd]
      cases rs with
      | nil => simp [specDur]; ring
      | cons s ss => simp [specDur]; ring

end DBManager

namespace DBManager

/-- The concrete sample table of spec §8's aggregator example:
`(t=0, "reading")`, `(t=100, "busy")`. -/
def demoTbl : List Row := [((0 : ℤ), "reading"), ((100 : ℤ), "busy")]

theorem demo_statsRows : statsRows demoTbl 0 = demoTbl := by decide

theorem demo_timeline : timeline demoTbl = demoTbl := by decide

theorem demo_dur :
    activity_durations_sec 150 demoTbl = [("reading", 100), ("busy", 50)] := by
  simp [activity_durations_sec, durGo, updateAdd, demoTbl]

theorem demo_stats_counts :
    (get_statistics demoTbl 0 150).activity_counts = [("busy", 1), ("reading", 1)] := by
  decide

theorem demo_stats_mf :
    (get_statistics demoTbl 0 150).most_frequent_activity = some "busy" := by
  decide

theorem demo_stats_durrep :
    (get_statistics demoTbl 0 150).activity_durations = [("reading", 1.7), ("busy", 0.8)] := by
  simp only [get_statistics]
  rw [demo_statsRows, demo_timeline, demo_dur]
  norm_num [lgGo, lookupD, round1, roundHalfEven]

theorem demo_stats_longest :
    (get_statistics demoTbl 0 150).longest_activity = some "reading" := by
  simp only [get_statistics]
  rw [demo_statsRows, demo_timeline, demo_dur]
  norm_num [lgGo, lookupD]

end DBManager

namespace DBManager

/-- C2 (amended): the duration-attribution loop gives every label the
sum of the gaps to the next sample over the samples bearing it, plus
`now - timestamp` for the final sample (`specDur`, exactly the claim's
attribution rule, in seconds); for the concrete samples
`(t=0, "reading")`, `(t=100, "busy")` at `now = 150` the cumulative
seconds are `{"reading": 100, "busy": 50}` and the counts are
`{"reading": 1, "busy": 1}`, and `longest` is `"reading"` — but the
*reported* durations dict holds minutes rounded to one decimal
(`{"reading": 1.7, "busy": 0.8}`), and `most_frequent` is `"busy"`, the
first row of the count query (whose equal-count tie order comes from
the SQL result order, not from chronology). -/
theorem c2_duration_attribution :
    (∀ (rows : List Row) (now : ℤ) (l : String),
      lookupD (activity_durations_sec now rows) l = specDur now l rows)
    ∧ lookupN (get_statistics demoTbl 0 150).activity_counts "reading" = 1
    ∧ lookupN (get_statistics demoTbl 0 150).activity_counts "busy" = 1
    ∧ lookupD (activity_durations_sec 150 (timeline (statsRows demoTbl 0))) "reading" = 100
    ∧ lookupD (activity_durations_sec 150 (timeline (statsRows demoTbl 0))) "busy" = 50
    ∧ (get_statistics demoTbl 0 150).activity_durations = [("reading", 1.7), ("busy", 0.8)]
    ∧ (get_statistics demoTbl 0 150).longest_activity = some "reading"
    ∧ (get_statistics demoTbl 0 150).most_frequent_activity = some "busy" := by
  refine ⟨?_, ?_, ?_, ?_, ?_, demo_stats_durrep, demo_stats_longest, demo_stats_mf⟩
  · intro rows now l
    simpa [activity_durations_sec, lookupD] using durGo_lookup now l rows none []
  · rw [demo_stats_counts]; simp [lookupN]
  · rw [demo_stats_counts]; simp [lookupN]
  · rw [demo_statsRows, demo_timeline, demo_dur]; simp [lookupD]
  · rw [demo_statsRows, demo_timeline, demo_dur]; simp [lookupD]

/-- Counterexample for C2 as stated: the durations dict that
`get_statistics` reports maps `"reading"` to `1.7` (minutes, rounded to
one decimal), not to `100`; and `most_frequent_activity` is `"busy"`,
not `"reading"`, because the equal-count tie falls to the count query's
row order rather than to chronological order. -/
theorem c2_duration_attribution_counterexample :
    lookupD (get_statistics demoTbl 0 150).activity_durations "reading" ≠ 100
    ∧ lookupD (get_statistics demoTbl 0 150).activity_durations "reading" = 1.7
    ∧ (get_statistics demoTbl 0 150).most_frequent_activity ≠ some "reading" := by
  refine ⟨?_, ?_, ?_⟩
  · rw [demo_stats_durrep]; simp [lookupD]; norm_num
  · rw [demo_stats_durrep]; simp [lookupD]
  · rw [demo_stats_mf]; simp

end DBManager

namespace DBManager

theorem pairwise_insertBy (x : String × ℕ) (l : List (String × ℕ))
    (h : l.Pairwise (fun p q => q.2 ≤ p.2)) :
    (insertBy (fun p q => decide (q.2 < p.2)) x l).Pairwise (fun p q => q.2 ≤ p.2) := by
  induction l with
  | nil => simp [insertBy]
  | cons y ys ih =>
    rw [List.pairwise_cons] at h
    obtain ⟨hy, hys⟩ := h
    simp only [insertBy]
    by_cases hc : x.2 < y.2
    · rw [if_pos (by simpa using hc), List.pairwise_cons]
      constructor
      · intro z hz
        rcases List.mem_cons.mp ((insertBy_perm _ x ys).mem_iff.mp hz) with rfl | hz2
        · exact le_of_lt hc
        · exact hy z hz2
      · exact ih hys
    · rw [if_neg (by simpa using hc), List.pairwise_cons]
      refine ⟨?_, List.pairwise_cons.mpr ⟨hy, hys⟩⟩
      intro z hz
      rcases List.mem_cons.mp hz with rfl | hz2
      · exact le_of_not_lt hc
      · exact (hy z hz2).trans (le_of_not_lt hc)

theorem pairwise_isortBy (l : List (String × ℕ)) :
    (isortBy (fun p q => decide (q.2 < p.2)) l).Pairwise (fun p q => q.2 ≤ p.2) := by
  induction l with
  | nil => simp [isortBy]
  | cons x xs ih => exact pairwise_insertBy x _ ih

theorem foldl_seenInsert_nodup :
    ∀ (ls ks : List String), ks.Nodup → (List.foldl seenInsert ks ls).Nodup := by
  intro ls
  induction ls with
  | nil => intro ks h; simpa using h
  | cons l ls ih =>
    intro ks h
    rw [List.foldl_cons]
    apply ih
    unfold seenInsert
    split_ifs with hmem
    · exact h
    · simp [List.nodup_append, h, hmem]

theorem firstOccur_nodup (ls : List String) : (firstOccur ls).Nodup :=
  foldl_seenInsert_nodup ls [] List.nodup_nil

theorem keys_updateAdd (d : List (String × ℚ)) (k : String) (v : ℚ) :
    (updateAdd d k v).map Prod.fst = seenInsert (d.map Prod.fst) k := by
  induction d with
  | nil => simp [updateAdd, seenInsert]
  | cons h d ih =>
    obtain ⟨k', v'⟩ := h
    simp only [updateAdd]
    by_cases hk : k' = k
    · subst hk
      rw [if_pos rfl]
      simp [seenInsert]
    · rw [if_neg hk]
      simp only [List.map_cons, ih, seenInsert]
      have hkk : ¬ k = k' := fun h => hk h.symm
      by_cases hmem : k ∈ d.map Prod.fst
      · simp [hmem, hkk]
      · simp [hmem, hkk]

theorem keys_durGo (now : ℤ) :
    ∀ (rows : List Row) (prev : Option Row) (acc : List (String × ℚ)),
    (durGo now prev acc rows).map Prod.fst =
      List.foldl seenInsert (acc.map Prod.fst) ((prev.toList ++ rows).map Prod.snd) := by
  intro rows
  induction rows with
  | nil =>
    intro prev acc
    cases prev with
    | none => simp [durGo]
    | some p => simp [durGo, keys_updateAdd]
  | cons r rs ih =>
    intro prev acc
    cases prev with
    | none => simpa [durGo] using ih (some r) acc
    | some p =>
      simp only [durGo]
      rw [ih (some r) _]
      simp [keys_updateAdd]

theorem keys_activity_durations (now : ℤ) (rows : List Row) :
    (activity_durations_sec now rows).map Prod.fst = firstOccur (rows.map Prod.snd) := by
  simpa [activity_durations_sec, firstOccur] using keys_durGo now rows none []

theorem lookupD_eq_of_mem :
    ∀ (d : List (String × ℚ)), (d.map Prod.fst).Nodup → ∀ p ∈ d, lookupD d p.1 = p.2 := by
  intro d
  induction d with
  | nil => intro _ p hp; simp at hp
  | cons h d ih =>
    obtain ⟨k, v⟩ := h
    intro hnd p hp
    simp only [List.map_cons, List.nodup_cons] at hnd
    obtain ⟨hk, hnd'⟩ := hnd
    rcases List.mem_cons.mp hp with rfl | hp'
    · simp [lookupD]
    · have hne : k ≠ p.1 := by
        intro he
        exact hk (by rw [he]; exact List.mem_map_of_mem Prod.fst hp')
      simp only [lookupD, if_neg hne]
      exact ih hnd' p hp'

theorem lookupN_dictInsertN :
    ∀ (d : List (String × ℕ)) (k : String) (v : ℕ) (m : String),
    lookupN (dictInsertN d k v) m = if k = m then v else lookupN d m := by
  intro d
  induction d with
  | nil => intro k v m; simp [dictInsertN, lookupN]
  | cons h d ih =>
    obtain ⟨k', v'⟩ := h
    intro k v m
    simp only [dictInsertN]
    by_cases hk : k' = k
    · subst hk
      rw [if_pos rfl]
      by_cases hm : k' = m <;> simp [lookupN, hm]
    · rw [if_neg hk]
      simp only [lookupN, ih]
      by_cases hm : k' = m
      · subst hm
        have hkk : ¬ k = k' := fun h => hk h.symm
        simp [hkk]
      · by_cases hkm : k = m <;> simp [hm, hkm]

theorem mfGo_keep :
    ∀ (rest dict : List (String × ℕ)) (m : String),
    (∀ p ∈ rest, p.2 ≤ lookupN dict m) → (∀ p ∈ rest, p.1 ≠ m) →
    (mfGo rest dict (some m)).2 = some m := by
  intro rest
  induction rest with
  | nil => intro dict m _ _; rfl
  | cons h rest ih =>
    obtain ⟨a, c⟩ := h
    intro dict m hle hne
    have ha : a ≠ m := hne (a, c) (List.mem_cons_self _ _)
    have hlk : lookupN (dictInsertN dict a c) m = lookupN dict m := by
      rw [lookupN_dictInsertN, if_neg ha]
    have hcond : ¬ lookupN (dictInsertN dict a c) m < c := by
      rw [hlk]
      exact not_lt_of_ge (hle (a, c) (List.mem_cons_self _ _))
    simp only [mfGo]
    rw [if_neg hcond]
    refine ih _ m ?_ ?_
    · intro p hp
      rw [hlk]
      exact hle p (List.mem_cons_of_mem _ hp)
    · intro p hp
      exact hne p (List.mem_cons_of_mem _ hp)

theorem mfGo_head (hd : String × ℕ) (tl : List (String × ℕ))
    (hle : ∀ p ∈ tl, p.2 ≤ hd.2) (hne : ∀ p ∈ tl, p.1 ≠ hd.1) :
    (mfGo (hd :: tl) [] none).2 = some hd.1 := by
  obtain ⟨a, c⟩ := hd
  simp only [mfGo]
  refine mfGo_keep tl _ a ?_ hne
  intro p hp
  simpa [dictInsertN, lookupN] using hle p hp

end DBManager

namespace DBManager

/-- Shadow of the `longest_activity` fold of `lgGo`, tracking only the
marker: replace the current best `m` by `a` exactly when the full
seconds dict maps `m` to something strictly below the current duration. -/
def foldBest (full : List (String × ℚ)) : String → List (String × ℚ) → String
  | m, [] => m
  | m, (a, d) :: rest => if lookupD full m < d then foldBest full a rest else foldBest full m rest

theorem lgGo_snd_some (full : List (String × ℚ)) :
    ∀ (l rep : List (String × ℚ)) (m : String),
    (lgGo full l rep (some m)).2 = some (foldBest full m l) := by
  intro l
  induction l with
  | nil => intro rep m; rfl
  | cons h l ih =>
    obtain ⟨a, d⟩ := h
    intro rep m
    simp only [lgGo, foldBest]
    split_ifs with hc
    · exact ih _ a
    · exact ih _ m

theorem lgGo_snd_none (full rep : List (String × ℚ)) (a : String) (d : ℚ)
    (l : List (String × ℚ)) :
    (lgGo full ((a, d) :: l) rep none).2 = some (foldBest full a l) := by
  simp only [lgGo]
  exact lgGo_snd_some full l _ a

theorem find?_congr_mem {α : Type} {p q : α → Bool} :
    ∀ l : List α, (∀ a ∈ l, p a = q a) → l.find? p = l.find? q := by
  intro l
  induction l with
  | nil => intro _; rfl
  | cons x xs ih =>
    intro h
    have hx := h x (List.mem_cons_self _ _)
    by_cases hp : p x = true
    · rw [List.find?_cons_of_pos _ hp, List.find?_cons_of_pos _ (hx ▸ hp)]
    · have hq : ¬ q x = true := by rw [← hx]; exact hp
      rw [List.find?_cons_of_neg _ hp, List.find?_cons_of_neg _ hq]
      exact ih (fun a ha => h a (List.mem_cons_of_mem _ ha))

theorem foldBest_spec (full : List (String × ℚ)) :
    ∀ (l : List (String × ℚ)) (m : String),
    (∀ p ∈ l, lookupD full p.1 = p.2) →
    ((∀ p ∈ l, p.2 ≤ lookupD full m) → foldBest full m l = m)
    ∧ (∀ p₀, p₀ ∈ l → lookupD full m < p₀.2 →
        ∃ r, l.find? (fun p => l.all (fun q => decide (q.2 ≤ p.2)) &&
              decide (lookupD full m < p.2)) = some r
          ∧ foldBest full m l = r.1) := by
  intro l
  induction l with
  | nil =>
    intro m _
    exact ⟨fun _ => rfl, fun p₀ hp₀ _ => absurd hp₀ (List.not_mem_nil p₀)⟩
  | cons hd rest ih =>
    obtain ⟨a, d⟩ := hd
    intro m hl
    have had : lookupD full a = d := hl (a, d) (List.mem_cons_self _ _)
    have hl' : ∀ p ∈ rest, lookupD full p.1 = p.2 :=
      fun p hp => hl p (List.mem_cons_of_mem _ hp)
    constructor
    · intro hall
      have hd_le : d ≤ lookupD full m := hall (a, d) (List.mem_cons_self _ _)
      simp only [foldBest]
      rw [if_neg (not_lt_of_ge hd_le)]
      exact (ih m hl').1 (fun p hp => hall p (List.mem_cons_of_mem _ hp))
    · intro p₀ hp₀ hgt
      by_cases hc : lookupD full m < d
      · by_cases hrest : ∀ p ∈ rest, p.2 ≤ d
        · refine ⟨(a, d), ?_, ?_⟩
          · refine List.find?_cons_of_pos _ ?_
            simp only [Bool.and_eq_true, List.all_eq_true, decide_eq_true_eq]
            refine ⟨?_, hc⟩
            intro q hq
            rcases List.mem_cons.mp hq with rfl | hq2
            · exact le_refl _
            · exact hrest q hq2
          · simp only [foldBest]
            rw [if_pos hc]
            exact (ih a hl').1 (fun p hp => had ▸ hrest p hp)
        · push_neg at hrest
          obtain ⟨pr, hpr, hdr⟩ := hrest
          obtain ⟨r, hfind, hfold⟩ := (ih a hl').2 pr hpr (by rw [had]; exact hdr)
          refine ⟨r, ?_, ?_⟩
          · rw [List.find?_cons_of_neg, find?_congr_mem rest ?_, hfind]
            · intro q hq
              by_cases hqall : rest.all (fun z => decide (z.2 ≤ q.2)) = true
              · have hprq : pr.2 ≤ q.2 := by
                  simpa using List.all_eq_true.mp hqall pr hpr
                have hdq : d < q.2 := lt_of_lt_of_le hdr hprq
                have h1 : ((a, d) :: rest).all (fun z => decide (z.2 ≤ q.2)) = true := by
                  simp [List.all_cons, hqall, le_of_lt hdq]
                have h2 : decide (lookupD full m < q.2) = true :=
                  decide_eq_true (lt_trans hc hdq)
                have h3 : decide (lookupD full a < q.2) = true :=
                  decide_eq_true (by rw [had]; exact hdq)
                rw [h1, h2, hqall, h3]
              · have hfalse : rest.all (fun z => decide (z.2 ≤ q.2)) = false := by
                  simpa using hqall
                have h1 : ((a, d) :: rest).all (fun z => decide (z.2 ≤ q.2)) = false := by
                  simp [List.all_cons, hfalse]
                rw [h1, hfalse]
                simp
            · simp only [Bool.and_eq_true, List.all_eq_true, decide_eq_true_eq, not_and]
              intro hall2
              exact absurd (hall2 pr (List.mem_cons_of_mem _ hpr)) (not_le_of_lt hdr)
          · simp only [foldBest]
            rw [if_pos hc]
            exact hfold
      · have hp₀' : p₀ ∈ rest := by
          rcases List.mem_cons.mp hp₀ with rfl | h2
          · exact absurd (lt_of_lt_of_le hgt (le_of_not_lt hc)) (lt_irrefl _)
          · exact h2
        obtain ⟨r, hfind, hfold⟩ := (ih m hl').2 p₀ hp₀' hgt
        refine ⟨r, ?_, ?_⟩
        · rw [List.find?_cons_of_neg, find?_congr_mem rest ?_, hfind]
          · intro q hq
            by_cases hqall : rest.all (fun z => decide (z.2 ≤ q.2)) = true
            · have hpq : p₀.2 ≤ q.2 := by
                simpa using List.all_eq_true.mp hqall p₀ hp₀'
              have hdq : d ≤ q.2 :=
                le_trans (le_of_not_lt hc) (le_of_lt (lt_of_lt_of_le hgt hpq))
              have h1 : ((a, d) :: rest).all (fun z => decide (z.2 ≤ q.2)) = true := by
                simp [List.all_cons, hqall, hdq]
              rw [h1, hqall]
            · have hfalse : rest.all (fun z => decide (z.2 ≤ q.2)) = false := by
                simpa using hqall
              have h1 : ((a, d) :: rest).all (fun z => decide (z.2 ≤ q.2)) = false := by
                simp [List.all_cons, hfalse]
              rw [h1, hfalse]
          · simp only [Bool.and_eq_true, List.all_eq_true, decide_eq_true_eq, not_and]
            intro _
            exact not_lt_of_ge (le_of_not_lt hc)
        · simp only [foldBest]
          rw [if_neg hc]
          exact hfold

end DBManager

namespace DBManager

theorem sqlActivityCounts_keys_nodup (rows : List Row) :
    ((sqlActivityCounts rows).map Prod.fst).Nodup := by
  have h1 := (isortBy_perm (fun p q => decide (q.2 < p.2))
    ((isortBy strLtb (firstOccur (rows.map (fun r => r.2)))).map
      (fun l => (l, countOf rows l)))).map Prod.fst
  have h2 : ∀ (L : List String), (L.map (fun l => (l, countOf rows l))).map Prod.fst = L := by
    intro L
    induction L with
    | nil => rfl
    | cons x xs ih => simp [ih]
  have h3 : (isortBy strLtb (firstOccur (rows.map (fun r => r.2)))).Nodup :=
    ((isortBy_perm _ _).nodup_iff).mpr (firstOccur_nodup _)
  refine h1.nodup_iff.mpr ?_
  rw [h2]
  exact h3

theorem longest_find (D : List (String × ℚ)) (hnd : (D.map Prod.fst).Nodup) :
    (lgGo D D [] none).2 =
      (D.find? (fun p => D.all (fun q => decide (q.2 ≤ p.2)))).map Prod.fst := by
  cases D with
  | nil => rfl
  | cons hd tl =>
    obtain ⟨a, d0⟩ := hd
    have hagree : ∀ p ∈ (a, d0) :: tl, lookupD ((a, d0) :: tl) p.1 = p.2 :=
      lookupD_eq_of_mem _ hnd
    have hagree' : ∀ p ∈ tl, lookupD ((a, d0) :: tl) p.1 = p.2 :=
      fun p hp => hagree p (List.mem_cons_of_mem _ hp)
    have hlk : lookupD ((a, d0) :: tl) a = d0 := by simp [lookupD]
    rw [lgGo_snd_none]
    by_cases hall : ∀ p ∈ tl, p.2 ≤ d0
    · rw [(foldBest_spec _ tl a hagree').1 (by rw [hlk]; exact hall)]
      rw [List.find?_cons_of_pos _ (by
        simp only [List.all_cons, Bool.and_eq_true, decide_eq_true_eq, List.all_eq_true]
        exact ⟨le_refl _, fun q hq => by simpa using hall q hq⟩)]
      rfl
    · push_neg at hall
      obtain ⟨pr, hpr, hgt⟩ := hall
      obtain ⟨r, hfind, hfold⟩ :=
        (foldBest_spec _ tl a hagree').2 pr hpr (by rw [hlk]; exact hgt)
      rw [hfold]
      have hstep : List.find? (fun p => ((a, d0) :: tl).all (fun q => decide (q.2 ≤ p.2)))
          ((a, d0) :: tl)
          = List.find? (fun p => ((a, d0) :: tl).all (fun q => decide (q.2 ≤ p.2))) tl := by
        refine List.find?_cons_of_neg _ ?_
        intro hcontra
        have h := List.all_eq_true.mp hcontra pr (List.mem_cons_of_mem _ hpr)
        simp only [decide_eq_true_eq] at h
        exact absurd h (not_le_of_lt hgt)
      have hcongr : List.find? (fun p => ((a, d0) :: tl).all (fun q => decide (q.2 ≤ p.2))) tl
          = List.find? (fun p => (tl.all fun q => decide (q.2 ≤ p.2)) &&
              decide (lookupD ((a, d0) :: tl) a < p.2)) tl := by
        apply find?_congr_mem
        intro q hq
        by_cases hqall : tl.all (fun z => decide (z.2 ≤ q.2)) = true
        · have hprq : pr.2 ≤ q.2 := by
            simpa using List.all_eq_true.mp hqall pr hpr
          have hdq : d0 < q.2 := lt_of_lt_of_le hgt hprq
          have h1 : ((a, d0) :: tl).all (fun z => decide (z.2 ≤ q.2)) = true := by
            simp [List.all_cons, hqall, le_of_lt hdq]
          have h3 : (tl.all (fun z => decide (z.2 ≤ q.2)) &&
              decide (lookupD ((a, d0) :: tl) a < q.2)) = true := by
            rw [hqall, hlk]
            simp [hdq]
          rw [h1, h3]
        · have hfalse : tl.all (fun z => decide (z.2 ≤ q.2)) = false := by
            simpa using hqall
          have h1 : ((a, d0) :: tl).all (fun z => decide (z.2 ≤ q.2)) = false := by
            simp [List.all_cons, hfalse]
          rw [h1, hfalse]
          simp
      rw [hstep, hcongr, hfind]
      rfl

/-- C8 (amended): `most_frequent_activity` is the first row of the
count query, so it attains the maximum per-label count, but its ties
fall to the count query's row order (count-descending over
label-ordered groups), which never sees chronology; `longest_activity`
is the first entry of the seconds-durations dict attaining the maximum
cumulative duration, and that dict's keys are in order of first
occurrence in the chronologically sorted timeline — so `longest` ties
are broken in favor of the label first encountered chronologically, as
claimed. -/
theorem c8_tie_breaking :
    (∀ (tbl : List Row) (s now : ℤ) (hd : String × ℕ) (tl : List (String × ℕ)),
      sqlActivityCounts (statsRows tbl s) = hd :: tl →
      (get_statistics tbl s now).most_frequent_activity = some hd.1
      ∧ ∀ p ∈ sqlActivityCounts (statsRows tbl s), p.2 ≤ hd.2)
    ∧ (∀ (tbl : List Row) (s now : ℤ),
      (get_statistics tbl s now).longest_activity =
        ((activity_durations_sec now (timeline (statsRows tbl s))).find?
          (fun p => (activity_durations_sec now (timeline (statsRows tbl s))).all
            (fun q => decide (q.2 ≤ p.2)))).map Prod.fst)
    ∧ (∀ (rows : List Row) (now : ℤ),
      (activity_durations_sec now rows).map Prod.fst = firstOccur (rows.map Prod.snd)) := by
  refine ⟨?_, ?_, fun rows now => keys_activity_durations now rows⟩
  · intro tbl s now hd tl hsplit
    have hpair : (sqlActivityCounts (statsRows tbl s)).Pairwise (fun p q => q.2 ≤ p.2) :=
      pairwise_isortBy _
    rw [hsplit, List.pairwise_cons] at hpair
    obtain ⟨hhd, _⟩ := hpair
    have hnd := sqlActivityCounts_keys_nodup (statsRows tbl s)
    rw [hsplit] at hnd
    simp only [List.map_cons, List.nodup_cons] at hnd
    obtain ⟨hnotin, _⟩ := hnd
    constructor
    · simp only [get_statistics]
      rw [hsplit]
      refine mfGo_head hd tl hhd ?_
      intro p hp he
      exact hnotin (by rw [← he]; exact List.mem_map_of_mem Prod.fst hp)
    · intro p hp
      rw [hsplit] at hp
      rcases List.mem_cons.mp hp with rfl | hp2
      · exact le_refl _
      · exact hhd p hp2
  · intro tbl s now
    simp only [get_statistics]
    exact longest_find _ (by rw [keys_activity_durations]; exact firstOccur_nodup _)

/-- The sample table showing a count tie: `(t=0, "b")`, `(t=100, "a")`;
chronologically "b" comes first. -/
def c8Tbl : List Row := [((0 : ℤ), "b"), ((100 : ℤ), "a")]

/-- Witness for C8 (amended): on `c8Tbl` the count query's first row is
`("a", 1)`, so `most_frequent_activity = "a"`, and its count bounds
every other count. -/
theorem c8_tie_breaking_witness :
    (get_statistics c8Tbl 0 150).most_frequent_activity = some "a" ∧ (1 : ℕ) ≤ 1 := by
  have h := c8_tie_breaking.1 c8Tbl 0 150 ("a", 1) [("b", 1)] (by decide)
  exact ⟨h.1, h.2 ("b", 1) (by decide)⟩

/-- Counterexample for C8 as stated: on `c8Tbl` both labels have count
1 (a tie), the chronologically first-encountered label is `"b"`, yet
`most_frequent_activity` is `"a"` — the tie is not broken in favor of
the first label encountered while scanning chronologically. -/
theorem c8_tie_breaking_counterexample :
    (get_statistics c8Tbl 0 150).activity_counts = [("a", 1), ("b", 1)]
    ∧ (timeline (statsRows c8Tbl 0)).map Prod.snd = ["b", "a"]
    ∧ (get_statistics c8Tbl 0 150).most_frequent_activity = some "a"
    ∧ "a" ≠ "b" :=
  ⟨by decide, by decide, by decide, by decide⟩

end DBManager
